import Mathlib

/-!
A shallow embedding of the logistic LDA model function from `models.py`
(functions `softmax_cross_entropy`, `create_table` and `logistic_lda_fn`).

Conventions of the embedding:
* float tensors become functions into `ℚ`; a batch of `B` vectors of length
  `K` is `Fin B → Fin K → ℚ`;
* the transcendental maps `tf.digamma`, `tf.exp` and `tf.log` are carried as
  explicit function parameters (`digamma`, `rexp`, `rlog`), since every
  property proved here is independent of their actual values (beyond
  positivity of `rexp` where softmax normalization matters);
* the TensorFlow lookup table (`tf.contrib.lookup.HashTable`) becomes an
  association-list lookup with a default value;
* `tf.scatter_add` becomes a sequential fold over the batch, which realizes
  its documented accumulate-on-duplicate-indices semantics;
* gathering a row with an out-of-range index (which faults in the TensorFlow
  runtime) is modelled by an `Option`-valued lookup.

Definitions whose name ends in `_spec` are NOT taken from the source; they
transcribe the natural-language specification and are compared with the
source-derived definitions in refinement theorems.
-/

namespace LogisticLDA

/-- A length-`K` float vector of the code, modelled over `ℚ`. -/
abbrev Vec (K : ℕ) := Fin K → ℚ

/-- Models `tf.nn.softmax` along the topic axis, parametrized by the
exponential map `rexp`. -/
def softmax {K : ℕ} (rexp : ℚ → ℚ) (v : Vec K) : Vec K :=
  fun k => rexp (v k) / ∑ j, rexp (v j)

/-- Models `tf.reduce_logsumexp(logits, axis=1)`, parametrized by `rexp` and
the logarithm map `rlog`. -/
def reduce_logsumexp {K : ℕ} (rexp rlog : ℚ → ℚ) (v : Vec K) : ℚ :=
  rlog (∑ j, rexp (v j))

/-- `models.py`, `softmax_cross_entropy` (lines 13-30): soft-target cross
entropy of one batch row, `-sum_k t_k * (l_k - logsumexp l)`. -/
def softmax_cross_entropy {K : ℕ} (rexp rlog : ℚ → ℚ) (targets logits : Vec K) : ℚ :=
  -∑ k, targets k * (logits k - reduce_logsumexp rexp rlog logits)

/-- Lookup in a key/value table with a default value, first matching key
wins; models `tf.contrib.lookup.HashTable(KeyValueTensorInitializer(keys,
values), default)`. -/
def hashTableLookup {α : Type} [DecidableEq α] (keys : List α) (values : List ℤ)
    (dflt : ℤ) (x : α) : ℤ :=
  match (keys.zip values).find? (fun u => decide (u.1 = x)) with
  | some u => u.2
  | none => dflt

/-- `models.py`, `create_table` (lines 33-51) with `values=None`: maps the
i-th key to `i` and everything else to `-1`. -/
def create_table {α : Type} [DecidableEq α] (keys : List α) : α → ℤ :=
  hashTableLookup keys ((List.range keys.length).map Int.ofNat) (-1)

/-- The topic table of `logistic_lda_fn` (lines 179-181): topics map to
their index, the empty string maps to `-1`, and the table default is `-1`. -/
def topic_table (topics : List String) : String → ℤ :=
  hashTableLookup (topics ++ [""]) ((List.range topics.length).map Int.ofNat ++ [-1]) (-1)

/-- Models `tf.one_hot(t, K)`: one at position `t`, zero elsewhere; a
negative index yields the all-zero vector. -/
def one_hot {K : ℕ} (t : ℤ) : Vec K :=
  fun k => if (k : ℤ) = t then 1 else 0

/-- Models `tf.gather(table, i)` for a single integer index: the TensorFlow
runtime faults on an out-of-range index, which we model by `none`. -/
def gather_row {A K : ℕ} (table : Fin A → Vec K) (i : ℤ) : Option (Vec K) :=
  if h : 0 ≤ i ∧ i.toNat < A then some (table ⟨i.toNat, h.2⟩) else none

/-- The hyperparameters of the author belief iteration of
`logistic_lda_fn`. -/
structure Config where
  alpha : ℚ
  author_topic_weight : ℚ
  use_author_topics : Bool

/-- One round of the author belief loop of `logistic_lda_fn` (lines
218-231), for one batch item, acting on the pair (author topic prediction,
topic biases). -/
def belief_iteration {K : ℕ} (digamma rexp : ℚ → ℚ) (cfg : Config)
    (topic_counts : Vec K) (author_topic : ℤ) (st : Vec K × Vec K) : Vec K × Vec K :=
  let pred :=
    if cfg.use_author_topics then
      (if author_topic < 0 then st.1 else one_hot author_topic)
    else st.1
  let topic_biases : Vec K := fun k =>
    digamma (cfg.alpha + topic_counts k + cfg.author_topic_weight * pred k)
  (softmax rexp (fun k => cfg.author_topic_weight * topic_biases k), topic_biases)

/-- The author belief loop of `logistic_lda_fn` (lines 214-231) run for a
given number of rounds, starting from the uniform prediction
`tf.ones_like(onehot) / n_topics`.  The bias component of the start state is
a placeholder: the code enforces at least one round (line 169-170), and
every round overwrites it. -/
def belief_engine {K : ℕ} (digamma rexp : ℚ → ℚ) (cfg : Config)
    (topic_counts : Vec K) (author_topic : ℤ) : ℕ → Vec K × Vec K
  | 0 => (fun _ => 1 / (K : ℚ), fun _ => 0)
  | n + 1 => belief_iteration digamma rexp cfg topic_counts author_topic
      (belief_engine digamma rexp cfg topic_counts author_topic n)

/-- `logits_biased = logits + topic_biases` (line 234), for one batch
item. -/
def logits_biased {K : ℕ} (logits topic_biases : Vec K) : Vec K :=
  fun k => logits k + topic_biases k

/-- Transcribed from the specification of one belief round (claim C1 /
spec 4.3 step 2): (a) with ground-truth labels enabled, overwrite the
estimate with the one-hot label where the resolved label index is `>= 0`;
(b) bias = digamma(alpha + counts + w * estimate); (c) estimate =
softmax(w * bias). -/
def belief_round_spec {K : ℕ} (digamma rexp : ℚ → ℚ) (alpha w : ℚ) (useLabels : Bool)
    (counts : Vec K) (label : ℤ) (pred : Vec K) : Vec K × Vec K :=
  let estimate : Vec K :=
    if useLabels = true ∧ 0 ≤ label then one_hot label else pred
  let bias : Vec K := fun k => digamma (alpha + counts k + w * estimate k)
  (softmax rexp (fun k => w * bias k), bias)

/-- Transcribed from the specification (claim C1 / spec 4.3): initialize the
estimate to uniform over the `K` topics and run exactly `R` rounds of
`belief_round_spec`. -/
def belief_spec_run {K : ℕ} (digamma rexp : ℚ → ℚ) (alpha w : ℚ) (useLabels : Bool)
    (counts : Vec K) (label : ℤ) (R : ℕ) : Vec K × Vec K :=
  (fun st => belief_round_spec digamma rexp alpha w useLabels counts label st.1)^[R]
    (fun _ => 1 / (K : ℚ), fun _ => 0)

/-- Models `tf.scatter_add(table, indices, updates)` as a sequential fold
over the (index, update) pairs; duplicate indices accumulate. -/
def scatter_add {A K : ℕ} (table : Fin A → Vec K) : List (Fin A × Vec K) → (Fin A → Vec K)
  | [] => table
  | u :: rest =>
      scatter_add (fun a k => if a = u.1 then table a k + u.2 k else table a k) rest

/-- The training-mode commit to the per-author topic-count table
(`logistic_lda_fn` lines 283-285): per-item increment
`probs_biased - topic_counts / max_items_per_author`, where `topic_counts`
is the row gathered before the batch (line 212), scattered into the
author's row. -/
def commit_counts {A K B : ℕ} (table : Fin A → Vec K) (author_ids : Fin B → Fin A)
    (probs_biased : Fin B → Vec K) (m : ℚ) : Fin A → Vec K :=
  scatter_add table ((List.finRange B).map fun i =>
    (author_ids i, fun k => probs_biased i k - table (author_ids i) k / m))

/-- Transcribed from the specification of `commit` (claim C2 / spec 4.4):
each author row receives the sum, over that author's items in the batch, of
`biased_probs - counts[author] / max_items_per_author`, with
`counts[author]` the pre-batch row. -/
def commit_counts_spec {A K B : ℕ} (table : Fin A → Vec K) (author_ids : Fin B → Fin A)
    (probs_biased : Fin B → Vec K) (m : ℚ) : Fin A → Vec K :=
  fun a k => table a k +
    ∑ i : Fin B, if author_ids i = a then probs_biased i k - table a k / m else 0

/-- The training-mode update of the global topic-usage vector
(`logistic_lda_fn` lines 287-290): per-item difference
`(probs - usage) / (max_items_per_author * n_authors)`, summed over the
batch (`tf.reduce_sum(..., axis=0)`) and added to the usage vector. -/
def commit_usage {K B : ℕ} (usage : Vec K) (probs : Fin B → Vec K) (m n : ℚ) : Vec K :=
  fun k => usage k + ∑ i : Fin B, (probs i k - usage k) / (m * n)

/-- Transcribed from the specification of `commit_usage` (claim C3 / spec
4.4) as written: the usage vector moves by the batch MEAN of the per-item
differences, scaled by `1 / (max_items_per_author * n_authors)`. -/
def commit_usage_mean_spec {K B : ℕ} (usage : Vec K) (probs : Fin B → Vec K)
    (m n : ℚ) : Vec K :=
  fun k => usage k + (∑ i : Fin B, (probs i k - usage k)) / (B : ℚ) / (m * n)

/-- The amended reading of `commit_usage`: the usage vector moves by the
batch SUM of the per-item differences, scaled by
`1 / (max_items_per_author * n_authors)`. -/
def commit_usage_sum_spec {K B : ℕ} (usage : Vec K) (probs : Fin B → Vec K)
    (m n : ℚ) : Vec K :=
  fun k => usage k + (∑ i : Fin B, (probs i k - usage k)) / (m * n)

/-- Iterated usage commits in which every one of the `B` items of every
batch carries the same unbiased probability vector `p`. -/
def usage_seq {K : ℕ} (B : ℕ) (u0 p : Vec K) (m n : ℚ) : ℕ → Vec K
  | 0 => u0
  | t + 1 => commit_usage (usage_seq B u0 p m n t) (fun _ : Fin B => p) m n

/-- One counts-table commit specialized to a single author receiving a
single item with biased probabilities `p`:
`row + (p - row / max_items_per_author)`. -/
def commit_row {K : ℕ} (c p : Vec K) (m : ℚ) : Vec K :=
  fun k => c k + (p k - c k / m)

/-- Iterated single-author, one-item-per-batch commits with the constant
biased probability vector `p`. -/
def counts_row_seq {K : ℕ} (c0 p : Vec K) (m : ℚ) : ℕ → Vec K
  | 0 => c0
  | t + 1 => commit_row (counts_row_seq c0 p m t) p m

/-- The initial value of `topic_dist_total` (lines 200-204): the constant
`1 / n_topics`. -/
def usage_init (K : ℕ) : Vec K := fun _ => 1 / (K : ℚ)

/-- `expected_topics` (line 257):
`(probs + 1e-6) / (topic_dist_total + 1e-6) / n_topics`. -/
def expected_topics {K : ℕ} (probs usage : Vec K) : Vec K :=
  fun k => (probs k + 1 / 1000000) / (usage k + 1 / 1000000) / (K : ℚ)

/-- The training loss of `logistic_lda_fn` (lines 256-263): the batch mean
of the soft-target cross entropy of the unbiased logits against the target
`stop_gradient(probs_biased + model_regularization * expected_topics)`.
The `tf.stop_gradient` is modelled by the target entering
`softmax_cross_entropy` as a value, not as a differentiated quantity. -/
def train_loss {B K : ℕ} (rexp rlog : ℚ → ℚ) (reg : ℚ)
    (logits topic_biases : Fin B → Vec K) (usage : Vec K) : ℚ :=
  (∑ i, softmax_cross_entropy rexp rlog
      (fun k => softmax rexp (logits_biased (logits i) (topic_biases i)) k
        + reg * expected_topics (softmax rexp (logits i)) usage k)
      (logits i)) / (B : ℚ)

/-- Transcribed from the specification of the training loss (claim C4 /
spec 4.5): the batch mean of `-sum_k target_k * (logit_k - logsumexp
logits)` on the unbiased item logits, with `target = biased_probs +
model_regularization * (unbiased_probs + 1e-6) / (usage + 1e-6) / K`. -/
def train_loss_spec {B K : ℕ} (rexp rlog : ℚ → ℚ) (reg : ℚ)
    (logits topic_biases : Fin B → Vec K) (usage : Vec K) : ℚ :=
  (∑ i, -(∑ k,
      (softmax rexp (fun j => logits i j + topic_biases i j) k
          + reg * (softmax rexp (logits i) k + 1 / 1000000) / (usage k + 1 / 1000000) / (K : ℚ))
        * (logits i k - rlog (∑ j, rexp (logits i j))))) / (B : ℚ)

/-- Models `tf.argmax(v, 1)` for one batch row: the least index attaining
the maximum (TensorFlow's tie-breaking rule). -/
def argmax {K : ℕ} (v : Vec K) : ℕ :=
  match (List.finRange K).find? (fun k => decide (∀ j, v j ≤ v k)) with
  | some k => k.val
  | none => 0

/-- Models `tf.reduce_max(v, 1)` for one batch row. -/
def reduce_max {K : ℕ} (v : Vec K) : ℚ :=
  match (List.finRange K).map v with
  | [] => 0
  | x :: xs => xs.foldl max x

/-- Models `tf.metrics.accuracy(labels, predictions)` over one batch: the
fraction of batch positions at which label and prediction agree. -/
def metrics_accuracy {B : ℕ} (labels preds : Fin B → ℤ) : ℚ :=
  ((Finset.univ.filter fun i => labels i = preds i).card : ℚ) / (B : ℚ)

/-- The EVAL-mode item accuracy of `logistic_lda_fn` (lines 273-276):
`tf.metrics.accuracy` of the resolved item topics against
`tf.argmax(logits_biased, 1)`. -/
def eval_accuracy_item {B K : ℕ} (item_topics : Fin B → ℤ)
    (lb : Fin B → Vec K) : ℚ :=
  metrics_accuracy item_topics (fun i => (argmax (lb i) : ℤ))

/-- Transcribed from the specification (claim C8): item accuracy computed
with every missing-label (`-1`) example excluded from both numerator and
denominator. -/
def accuracy_excluding_missing {B : ℕ} (labels preds : Fin B → ℤ) : ℚ :=
  ((Finset.univ.filter fun i => labels i ≠ -1 ∧ labels i = preds i).card : ℚ)
    / ((Finset.univ.filter fun i => labels i ≠ -1).card : ℚ)

/-- The PREDICT-mode output record of `logistic_lda_fn` (lines 244-253). -/
structure Predictions (B : ℕ) where
  item_id : Fin B → ℤ
  item_prediction : Fin B → ℕ
  item_probability : Fin B → ℚ
  item_topic : Fin B → ℤ
  author_id : Fin B → ℤ
  author_prediction : Fin B → ℕ
  author_probability : Fin B → ℚ
  author_topic : Fin B → ℤ

/-- The PREDICT-mode branch of `logistic_lda_fn` (lines 240-254), given the
already-computed per-item tensors.  `features.get('item_id',
tf.zeros_like(author_ids) - 1)` becomes `Option.getD` with the constant
`-1` fallback. -/
def predictions_dict {B K : ℕ} (item_id : Option (Fin B → ℤ)) (author_ids : Fin B → ℤ)
    (lb probs_biased : Fin B → Vec K) (item_topics author_topics : Fin B → ℤ)
    (author_pred : Fin B → Vec K) : Predictions B :=
  { item_id := item_id.getD (fun _ => 0 - 1)
    item_prediction := fun i => argmax (lb i)
    item_probability := fun i => reduce_max (probs_biased i)
    item_topic := item_topics
    author_id := author_ids
    author_prediction := fun i => argmax (author_pred i)
    author_probability := fun i => reduce_max (author_pred i)
    author_topic := author_topics }

/-- Convergence of a rational sequence to a limit, used to state the
moving-average convergence properties. -/
def convergesTo (s : ℕ → ℚ) (l : ℚ) : Prop :=
  ∀ e : ℚ, 0 < e → ∃ T : ℕ, ∀ t : ℕ, T ≤ t → |s t - l| < e

theorem belief_iteration_eq_round {K : ℕ} (digamma rexp : ℚ → ℚ) (cfg : Config)
    (counts : Vec K) (label : ℤ) (st : Vec K × Vec K) :
    belief_iteration digamma rexp cfg counts label st
      = belief_round_spec digamma rexp cfg.alpha cfg.author_topic_weight
          cfg.use_author_topics counts label st.1 := by
  have hpred : (if cfg.use_author_topics then
        (if label < 0 then st.1 else one_hot label) else st.1)
      = (if cfg.use_author_topics = true ∧ 0 ≤ label then one_hot (K := K) label
          else st.1) := by
    cases hu : cfg.use_author_topics with
    | false => simp
    | true =>
      by_cases hl : label < 0
      · simp [hl, Int.not_le.mpr hl]
      · simp [hl, Int.not_lt.mp hl]
  simp only [belief_iteration, belief_round_spec, hpred]

theorem belief_engine_eq_spec_run {K : ℕ} (digamma rexp : ℚ → ℚ) (cfg : Config)
    (counts : Vec K) (label : ℤ) (R : ℕ) :
    belief_engine digamma rexp cfg counts label R
      = belief_spec_run digamma rexp cfg.alpha cfg.author_topic_weight
          cfg.use_author_topics counts label R := by
  induction R with
  | zero => rfl
  | succ n ih =>
    have h1 : belief_spec_run digamma rexp cfg.alpha cfg.author_topic_weight
          cfg.use_author_topics counts label (n + 1)
        = belief_round_spec digamma rexp cfg.alpha cfg.author_topic_weight
            cfg.use_author_topics counts label
            (belief_spec_run digamma rexp cfg.alpha cfg.author_topic_weight
              cfg.use_author_topics counts label n).1 := by
      simp only [belief_spec_run, Function.iterate_succ_apply']
    simp only [belief_engine]
    rw [belief_iteration_eq_round, ih, h1]

/-- C1: for every batch item, the author belief engine initializes the
prediction estimate to the uniform distribution, runs exactly
`author_topic_iterations` rounds of (a) ground-truth overwrite where a
label is present, (b) `bias = digamma(alpha + counts + w * estimate)`,
(c) `estimate = softmax(w * bias)`, and afterwards adds the final bias
vector elementwise to the item logits. -/
theorem c1_author_belief_engine {K : ℕ} (digamma rexp : ℚ → ℚ) (cfg : Config)
    (counts : Vec K) (label : ℤ) (R : ℕ) (hR : 1 ≤ R) :
    belief_engine digamma rexp cfg counts label R
      = belief_spec_run digamma rexp cfg.alpha cfg.author_topic_weight
          cfg.use_author_topics counts label R
    ∧ ∀ logits : Vec K,
        logits_biased logits (belief_engine digamma rexp cfg counts label R).2
          = fun k => logits k
              + (belief_spec_run digamma rexp cfg.alpha cfg.author_topic_weight
                  cfg.use_author_topics counts label R).2 k := by
  refine ⟨belief_engine_eq_spec_run digamma rexp cfg counts label R, ?_⟩
  intro logits
  rw [belief_engine_eq_spec_run digamma rexp cfg counts label R]
  rfl

/-- Witness for C1 at a concrete configuration. -/
theorem c1_author_belief_engine_witness :
    1 ≤ 1 ∧
    (belief_engine (fun x => x) (fun _ => 1) ⟨1, 1, true⟩ (fun _ : Fin 2 => 1) (-1) 1
        = belief_spec_run (fun x => x) (fun _ => 1) (Config.mk 1 1 true).alpha
            (Config.mk 1 1 true).author_topic_weight
            (Config.mk 1 1 true).use_author_topics (fun _ : Fin 2 => 1) (-1) 1
      ∧ ∀ logits : Vec 2,
          logits_biased logits
              (belief_engine (fun x => x) (fun _ => 1) ⟨1, 1, true⟩
                (fun _ : Fin 2 => 1) (-1) 1).2
            = fun k => logits k
                + (belief_spec_run (fun x => x) (fun _ => 1) (Config.mk 1 1 true).alpha
                    (Config.mk 1 1 true).author_topic_weight
                    (Config.mk 1 1 true).use_author_topics
                    (fun _ : Fin 2 => 1) (-1) 1).2 k) :=
  ⟨le_refl 1,
    c1_author_belief_engine (fun x => x) (fun _ => 1) ⟨1, 1, true⟩
      (fun _ : Fin 2 => 1) (-1) 1 (le_refl 1)⟩

theorem scatter_add_apply {A K : ℕ} (l : List (Fin A × Vec K)) (table : Fin A → Vec K)
    (a : Fin A) (k : Fin K) :
    scatter_add table l a k
      = table a k + (l.map fun u => if a = u.1 then u.2 k else 0).sum := by
  induction l generalizing table with
  | nil => simp [scatter_add]
  | cons u rest ih =>
    simp only [scatter_add, List.map_cons, List.sum_cons]
    rw [ih]
    by_cases h : a = u.1
    · simp only [if_pos h]
      ring
    · simp only [if_neg h]
      ring

/-- C2: the training-mode commit adds, to every author's row, the sum over
that author's items of `biased_probs - counts[author] / max_items_per_author`
with `counts[author]` the pre-batch row; items sharing an author accumulate
into the one row. -/
theorem c2_commit_counts_rowwise {A K B : ℕ} (table : Fin A → Vec K)
    (author_ids : Fin B → Fin A) (probs_biased : Fin B → Vec K) (m : ℚ) :
    commit_counts table author_ids probs_biased m
      = commit_counts_spec table author_ids probs_biased m := by
  funext a k
  simp only [commit_counts, commit_counts_spec]
  rw [scatter_add_apply, List.map_map]
  congr 1
  rw [Fin.sum_univ_def]
  congr 1
  apply List.map_congr_left
  intro i _
  simp only [Function.comp]
  by_cases h : author_ids i = a
  · rw [if_pos h.symm, if_pos h, h]
  · rw [if_neg (fun hh => h hh.symm), if_neg h]

theorem geom_convergesTo (l d r : ℚ) (hr : |r| < 1) (s : ℕ → ℚ)
    (hs : ∀ t, s t - l = r ^ t * d) : convergesTo s l := by
  intro e he
  by_cases hd : d = 0
  · refine ⟨0, fun t _ => ?_⟩
    rw [hs t, hd, mul_zero, abs_zero]
    exact he
  · have hd1 : (0 : ℚ) < |d| + 1 := by positivity
    obtain ⟨T, hT⟩ := exists_pow_lt_of_lt_one (div_pos he hd1) hr
    refine ⟨T, fun t ht => ?_⟩
    rw [hs t, abs_mul, abs_pow]
    have h1 : |r| ^ t * |d| ≤ |r| ^ T * |d| :=
      mul_le_mul_of_nonneg_right
        (pow_le_pow_of_le_one (abs_nonneg r) (le_of_lt hr) ht) (abs_nonneg d)
    have h2 : |r| ^ T * |d| < (e / (|d| + 1)) * |d| :=
      mul_lt_mul_of_pos_right hT (abs_pos.mpr hd)
    have h3 : (e / (|d| + 1)) * |d| ≤ e := by
      rw [div_mul_eq_mul_div, div_le_iff₀ hd1]
      nlinarith [abs_nonneg d]
    linarith

theorem usage_seq_geometric (K B : ℕ) (u0 p : Vec K) (m n : ℚ) (t : ℕ) (k : Fin K) :
    usage_seq B u0 p m n t k - p k
      = (1 - (B : ℚ) / (m * n)) ^ t * (u0 k - p k) := by
  induction t with
  | zero =>
    rw [pow_zero, one_mul]
    rfl
  | succ t ih =>
    have hseq : usage_seq B u0 p m n t k
        = p k + (1 - (B : ℚ) / (m * n)) ^ t * (u0 k - p k) := by linarith
    have hsum : ∑ _i : Fin B, (p k - usage_seq B u0 p m n t k) / (m * n)
        = (B : ℚ) * ((p k - usage_seq B u0 p m n t k) / (m * n)) := by
      rw [Finset.sum_const, Finset.card_univ, Fintype.card_fin, nsmul_eq_mul]
    simp only [usage_seq, commit_usage]
    rw [hsum, hseq]
    ring

/-- C3 counterexample: the usage update is not the batch MEAN of the
per-item differences scaled by `1 / (max_items_per_author * n_authors)`;
with two items, `K = 1`, `usage = 0`, both unbiased probabilities `1`, and
`max_items_per_author = n_authors = 1`, the code moves usage to `2`, the
mean rule to `1`. -/
theorem c3_counterexample :
    commit_usage (fun _ : Fin 1 => 0) (fun _ : Fin 2 => fun _ => 1) 1 1 0
      ≠ commit_usage_mean_spec (fun _ : Fin 1 => 0) (fun _ : Fin 2 => fun _ => 1) 1 1 0 := by
  simp [commit_usage, commit_usage_mean_spec, Fin.sum_univ_two]

/-- C3 amended: the usage update adds the batch SUM (not mean) of
`(unbiased_probs - usage) / (max_items_per_author * n_authors)`, so the
per-commit step scales with the batch size `B`; under repeated commits in
which every item's unbiased probability vector equals a constant `p`, the
error `usage - p` is multiplied by exactly `1 - B / (m * n)` per commit,
and hence usage converges to `p` whenever `|1 - B / (m * n)| < 1`. -/
theorem c3_usage_update_amended :
    (∀ (K B : ℕ) (usage : Vec K) (probs : Fin B → Vec K) (m n : ℚ),
        commit_usage usage probs m n = commit_usage_sum_spec usage probs m n)
    ∧ (∀ (K B : ℕ) (u0 p : Vec K) (m n : ℚ) (t : ℕ) (k : Fin K),
        usage_seq B u0 p m n t k - p k
          = (1 - (B : ℚ) / (m * n)) ^ t * (u0 k - p k))
    ∧ (∀ (K B : ℕ) (u0 p : Vec K) (m n : ℚ) (k : Fin K),
        |1 - (B : ℚ) / (m * n)| < 1 →
        convergesTo (fun t => usage_seq B u0 p m n t k) (p k)) := by
  refine ⟨?_, usage_seq_geometric, ?_⟩
  · intro K B usage probs m n
    funext k
    simp only [commit_usage, commit_usage_sum_spec]
    rw [Finset.sum_div]
  · intro K B u0 p m n k hr
    exact geom_convergesTo (p k) (u0 k - p k) (1 - (B : ℚ) / (m * n)) hr _
      (fun t => usage_seq_geometric K B u0 p m n t k)

/-- Witness for the amended C3 at a concrete configuration. -/
theorem c3_usage_update_amended_witness :
    |1 - ((1 : ℕ) : ℚ) / (2 * 1)| < 1
    ∧ convergesTo (fun t => usage_seq 1 (fun _ : Fin 1 => 0) (fun _ => 1) 2 1 t 0)
        ((fun _ : Fin 1 => (1 : ℚ)) 0) :=
  ⟨by rw [abs_lt]; constructor <;> norm_num,
    c3_usage_update_amended.2.2 1 1 (fun _ => 0) (fun _ => 1) 2 1 0
      (by rw [abs_lt]; constructor <;> norm_num)⟩

theorem counts_row_geometric (K : ℕ) (c0 p : Vec K) (m : ℚ) (hm : m ≠ 0)
    (t : ℕ) (k : Fin K) :
    counts_row_seq c0 p m t k - m * p k
      = (1 - 1 / m) ^ t * (c0 k - m * p k) := by
  induction t with
  | zero =>
    rw [pow_zero, one_mul]
    rfl
  | succ t ih =>
    have hc : counts_row_seq c0 p m t k
        = m * p k + (1 - 1 / m) ^ t * (c0 k - m * p k) := by linarith
    simp only [counts_row_seq, commit_row]
    rw [hc]
    field_simp
    ring

theorem counts_row_fixed : ∀ t : ℕ,
    counts_row_seq (fun _ : Fin 1 => 2) (fun _ => 1) 2 t = fun _ : Fin 1 => 2 := by
  intro t
  induction t with
  | zero => rfl
  | succ t ih =>
    funext k
    simp only [counts_row_seq, commit_row, ih]
    norm_num

/-- C5 counterexample: with `max_items_per_author = 2` and constant biased
probabilities `p = [1]`, the count row started at `[2]` is a fixed point of
the commit and therefore does not converge to `p` itself. -/
theorem c5_counterexample :
    ¬ convergesTo (fun t => counts_row_seq (fun _ : Fin 1 => 2) (fun _ => 1) 2 t 0)
        ((fun _ : Fin 1 => (1 : ℚ)) 0) := by
  intro h
  obtain ⟨T, hT⟩ := h (1 / 2) (by norm_num)
  have h2 : |counts_row_seq (fun _ : Fin 1 => 2) (fun _ => 1) 2 T 0 - 1| < 1 / 2 := by
    simpa using hT T le_rfl
  rw [counts_row_fixed T] at h2
  norm_num at h2

/-- C5 amended: a one-item batch for a single author commits
`row += p - row / max_items_per_author`; under repeated such commits with
the same constant biased-probability vector `p`, the error to
`max_items_per_author * p` (not to `p`) is multiplied by exactly
`1 - 1 / max_items_per_author` per commit, so the row converges
geometrically to `max_items_per_author * p` whenever
`|1 - 1 / max_items_per_author| < 1`. -/
theorem c5_counts_convergence_amended :
    (∀ (K : ℕ) (table : Fin 1 → Vec K) (p : Vec K) (m : ℚ),
        commit_counts table (fun _ : Fin 1 => 0) (fun _ : Fin 1 => p) m
          = fun _ => commit_row (table 0) p m)
    ∧ (∀ (K : ℕ) (c0 p : Vec K) (m : ℚ), m ≠ 0 → ∀ (t : ℕ) (k : Fin K),
        counts_row_seq c0 p m t k - m * p k
          = (1 - 1 / m) ^ t * (c0 k - m * p k))
    ∧ (∀ (K : ℕ) (c0 p : Vec K) (m : ℚ) (k : Fin K), m ≠ 0 →
        |1 - 1 / m| < 1 →
        convergesTo (fun t => counts_row_seq c0 p m t k) (m * p k)) := by
  refine ⟨?_, fun K c0 p m hm t k => counts_row_geometric K c0 p m hm t k, ?_⟩
  · intro K table p m
    funext a k
    have ha : a = 0 := Subsingleton.elim a 0
    subst ha
    simp only [commit_counts]
    rw [scatter_add_apply]
    have hfr : List.finRange 1 = [0] := rfl
    rw [hfr]
    simp [commit_row]
  · intro K c0 p m k hm hr
    exact geom_convergesTo (m * p k) (c0 k - m * p k) (1 - 1 / m) hr _
      (fun t => counts_row_geometric K c0 p m hm t k)

/-- Witness for the amended C5 at a concrete configuration. -/
theorem c5_counts_convergence_amended_witness :
    (2 : ℚ) ≠ 0 ∧ |1 - 1 / (2 : ℚ)| < 1
    ∧ convergesTo (fun t => counts_row_seq (fun _ : Fin 1 => 1) (fun _ => 1) 2 t 0)
        (2 * (fun _ : Fin 1 => (1 : ℚ)) 0) :=
  ⟨by norm_num, by rw [abs_lt]; constructor <;> norm_num,
    c5_counts_convergence_amended.2.2 1 (fun _ => 1) (fun _ => 1) 2 0
      (by norm_num) (by rw [abs_lt]; constructor <;> norm_num)⟩

/-- C4: the training loss is the batch mean of the soft-target cross
entropy `-sum_k target_k * (logit_k - logsumexp logits)` on the unbiased
item logits, with `target = biased_probs + model_regularization *
(unbiased_probs + 1e-6) / (usage + 1e-6) / K`; the target enters the loss
as a fixed value (the embedding of `tf.stop_gradient`). -/
theorem c4_train_loss_formula {B K : ℕ} (rexp rlog : ℚ → ℚ) (reg : ℚ)
    (logits topic_biases : Fin B → Vec K) (usage : Vec K) :
    train_loss rexp rlog reg logits topic_biases usage
      = train_loss_spec rexp rlog reg logits topic_biases usage := by
  simp only [train_loss, train_loss_spec, softmax_cross_entropy, reduce_logsumexp,
    expected_topics]
  congr 1
  apply Finset.sum_congr rfl
  intro i _
  have hlb : logits_biased (logits i) (topic_biases i)
      = fun j => logits i j + topic_biases i j := rfl
  rw [hlb]
  congr 1
  apply Finset.sum_congr rfl
  intro k _
  ring

theorem softmax_const {K : ℕ} (rexp : ℚ → ℚ) (c : ℚ) (h : 0 < rexp c) (hK : 0 < K)
    (k : Fin K) : softmax rexp (fun _ => c) k = 1 / (K : ℚ) := by
  have hKQ : (0 : ℚ) < (K : ℚ) := by exact_mod_cast hK
  simp only [softmax]
  rw [Finset.sum_const, Finset.card_univ, Fintype.card_fin, nsmul_eq_mul]
  rw [div_eq_div_iff (ne_of_gt (mul_pos hKQ h)) (ne_of_gt hKQ)]
  ring

/-- C6 counterexample: starting from the initial uniform usage vector
(`K = 2`), a batch of three items on the simplex with
`max_items_per_author = n_authors = 1` drives the first usage component to
`-1 < 0`, so non-negativity is not preserved for every batch. -/
theorem c6_counterexample :
    (∀ i : Fin 3, (∀ k : Fin 2, 0 ≤ one_hot (K := 2) 1 k)
      ∧ (∑ k : Fin 2, one_hot (K := 2) 1 k) = 1)
    ∧ commit_usage (usage_init 2) (fun _ : Fin 3 => one_hot 1) 1 1 0 < 0 := by
  constructor
  · intro i
    constructor
    · intro k
      fin_cases k <;> simp [one_hot]
    · rw [Fin.sum_univ_two]
      simp [one_hot]
  · simp only [commit_usage, usage_init, one_hot, Fin.sum_univ_three]
    norm_num

/-- C6 amended: the usage vector is initialized to the uniform `1/K`, and a
training-batch usage update preserves non-negativity and the exact unit sum
provided every per-item unbiased probability vector lies on the simplex and
the batch size does not exceed `max_items_per_author * n_authors` (with the
latter positive); without the batch-size bound a component can go
negative. -/
theorem c6_usage_invariant_amended (K B : ℕ) (u : Vec K) (p : Fin B → Vec K)
    (m n : ℚ) (hmn : 0 < m * n) (hB : (B : ℚ) ≤ m * n)
    (hu0 : ∀ k, 0 ≤ u k) (hu1 : ∑ k, u k = 1)
    (hp : ∀ i, (∀ k, 0 ≤ p i k) ∧ ∑ k, p i k = 1) :
    (∀ k : Fin K, usage_init K k = 1 / (K : ℚ))
    ∧ (∀ k, 0 ≤ commit_usage u p m n k)
    ∧ (∑ k, commit_usage u p m n k = 1) := by
  refine ⟨fun k => rfl, ?_, ?_⟩
  · intro k
    have hexp : commit_usage u p m n k
        = u k * (1 - (B : ℚ) / (m * n)) + (∑ i, p i k) / (m * n) := by
      simp only [commit_usage]
      rw [← Finset.sum_div, Finset.sum_sub_distrib, Finset.sum_const,
        Finset.card_univ, Fintype.card_fin, nsmul_eq_mul]
      field_simp
      ring
    rw [hexp]
    have h1 : (B : ℚ) / (m * n) ≤ 1 := (div_le_one hmn).mpr hB
    have h2 : (0 : ℚ) ≤ ∑ i, p i k := Finset.sum_nonneg fun i _ => (hp i).1 k
    have h3 : (0 : ℚ) ≤ u k * (1 - (B : ℚ) / (m * n)) :=
      mul_nonneg (hu0 k) (by linarith)
    have h4 : (0 : ℚ) ≤ (∑ i, p i k) / (m * n) := div_nonneg h2 (le_of_lt hmn)
    linarith
  · simp only [commit_usage]
    rw [Finset.sum_add_distrib, hu1]
    have hz : (∑ k, ∑ i : Fin B, (p i k - u k) / (m * n)) = 0 := by
      rw [Finset.sum_comm]
      apply Finset.sum_eq_zero
      intro i _
      rw [← Finset.sum_div, Finset.sum_sub_distrib, (hp i).2, hu1]
      simp
    rw [hz, add_zero]

/-- Witness for the amended C6 at a concrete configuration. -/
theorem c6_usage_invariant_amended_witness :
    (0 : ℚ) < 1 * 1 ∧ ((1 : ℕ) : ℚ) ≤ 1 * 1
    ∧ ((∀ k : Fin 2, usage_init 2 k = 1 / ((2 : ℕ) : ℚ))
      ∧ (∀ k, 0 ≤ commit_usage (usage_init 2) (fun _ : Fin 1 => one_hot 0) 1 1 k)
      ∧ (∑ k, commit_usage (usage_init 2) (fun _ : Fin 1 => one_hot 0) 1 1 k = 1)) :=
  ⟨by norm_num, by norm_num,
    c6_usage_invariant_amended 2 1 (usage_init 2) (fun _ => one_hot 0) 1 1
      (by norm_num) (by norm_num)
      (fun k => by simp [usage_init])
      (by rw [Fin.sum_univ_two]; simp [usage_init]; norm_num)
      (fun i => ⟨fun k => by fin_cases k <;> simp [one_hot],
        by rw [Fin.sum_univ_two]; simp [one_hot]⟩)⟩

theorem argmax_add_const {K : ℕ} (v : Vec K) (c : ℚ) :
    argmax (fun k => v k + c) = argmax v := by
  simp only [argmax]
  have hfn : (fun k : Fin K => decide (∀ j, v j + c ≤ v k + c))
      = fun k => decide (∀ j, v j ≤ v k) := by
    funext k
    apply decide_eq_decide.mpr
    constructor
    · intro h j
      have := h j
      linarith
    · intro h j
      have := h j
      linarith
  rw [hfn]

/-- C7 counterexample: with `K = 3`, counts `[1,1,1]`, `alpha = 1`,
`author_topic_weight = 1`, one iteration and no author label, the digamma
argument produced by the code is `alpha + counts + w * (1/3) = 7/3`, not
`2`: instantiating the digamma parameter with the identity yields a bias of
`7/3` per topic, while the claim asserts `digamma 2`. -/
theorem c7_counterexample :
    (belief_engine (fun x => x) (fun _ => 1) ⟨1, 1, true⟩
        (fun _ : Fin 3 => 1) (-1) 1).2 0 = 7 / 3
    ∧ (7 : ℚ) / 3 ≠ (fun x : ℚ => x) 2 := by
  constructor
  · show (belief_iteration (fun x => x) (fun _ => 1) ⟨1, 1, true⟩
        (fun _ : Fin 3 => 1) (-1)
        (fun _ => 1 / ((3 : ℕ) : ℚ), fun _ => 0)).2 0 = 7 / 3
    simp only [belief_iteration]
    norm_num
  · norm_num

/-- C7 amended: in the `K = 3`, counts `[1,1,1]`, `alpha = 1`, `w = 1`,
one-iteration, no-label configuration, the prediction estimate after the
iteration is the uniform `[1/3,1/3,1/3]` and the bias vector is the
constant `digamma (7/3)` across topics (not `digamma 2`), hence the biased
logits differ from the unbiased logits by a per-item constant and the
argmax is preserved. -/
theorem c7_end_to_end_amended (digamma rexp : ℚ → ℚ) (hpos : ∀ x, 0 < rexp x) :
    (belief_engine digamma rexp ⟨1, 1, true⟩ (fun _ : Fin 3 => 1) (-1) 1).1
        = (fun _ => 1 / 3)
    ∧ (belief_engine digamma rexp ⟨1, 1, true⟩ (fun _ : Fin 3 => 1) (-1) 1).2
        = (fun _ => digamma (7 / 3))
    ∧ ∀ logits : Vec 3,
        argmax (logits_biased logits
            (belief_engine digamma rexp ⟨1, 1, true⟩ (fun _ : Fin 3 => 1) (-1) 1).2)
          = argmax logits := by
  have harg : (1 : ℚ) + 1 + 1 * (1 / ((3 : ℕ) : ℚ)) = 7 / 3 := by norm_num
  have hbias : (belief_engine digamma rexp ⟨1, 1, true⟩ (fun _ : Fin 3 => 1) (-1) 1).2
      = (fun _ => digamma (7 / 3)) := by
    funext k
    show (belief_iteration digamma rexp ⟨1, 1, true⟩ (fun _ : Fin 3 => 1) (-1)
        (fun _ => 1 / ((3 : ℕ) : ℚ), fun _ => 0)).2 k = digamma (7 / 3)
    simp only [belief_iteration]
    norm_num
  refine ⟨?_, hbias, ?_⟩
  · funext k
    show (belief_iteration digamma rexp ⟨1, 1, true⟩ (fun _ : Fin 3 => 1) (-1)
        (fun _ => 1 / ((3 : ℕ) : ℚ), fun _ => 0)).1 k = 1 / 3
    simp only [belief_iteration]
    norm_num
    rw [softmax_const rexp (digamma (7 / 3)) (hpos _) (by norm_num : 0 < 3)]
    norm_num
  · intro logits
    rw [hbias]
    show argmax (fun k => logits k + digamma (7 / 3)) = argmax logits
    exact argmax_add_const logits (digamma (7 / 3))

/-- Witness for the amended C7 with digamma the identity and a constant
positive exponential. -/
theorem c7_end_to_end_amended_witness :
    (∀ x : ℚ, (0 : ℚ) < (fun _ : ℚ => (1 : ℚ)) x)
    ∧ ((belief_engine (fun x => x) (fun _ : ℚ => (1 : ℚ)) ⟨1, 1, true⟩
          (fun _ : Fin 3 => 1) (-1) 1).1 = (fun _ => 1 / 3)
      ∧ (belief_engine (fun x => x) (fun _ : ℚ => (1 : ℚ)) ⟨1, 1, true⟩
          (fun _ : Fin 3 => 1) (-1) 1).2 = (fun _ => (fun x : ℚ => x) (7 / 3))
      ∧ ∀ logits : Vec 3,
          argmax (logits_biased logits
              (belief_engine (fun x => x) (fun _ : ℚ => (1 : ℚ)) ⟨1, 1, true⟩
                (fun _ : Fin 3 => 1) (-1) 1).2)
            = argmax logits) :=
  ⟨fun _ => one_pos,
    c7_end_to_end_amended (fun x => x) (fun _ => 1) (fun _ => one_pos)⟩

theorem topic_table_missing (topics : List String) (h : "" ∉ topics) :
    topic_table topics "" = -1 := by
  unfold topic_table hashTableLookup
  rw [List.zip_append (by simp), List.find?_append]
  have h1 : (topics.zip ((List.range topics.length).map Int.ofNat)).find?
      (fun u => decide (u.1 = "")) = none := by
    rw [List.find?_eq_none]
    intro u hu
    have hmem : u.1 ∈ topics := (List.of_mem_zip hu).1
    simp only [decide_eq_true_eq]
    intro heq
    exact h (heq ▸ hmem)
  rw [h1]
  rfl

theorem create_table_unknown {α : Type} [DecidableEq α] (keys : List α) (x : α)
    (h : x ∉ keys) : create_table keys x = -1 := by
  unfold create_table hashTableLookup
  have h1 : (keys.zip ((List.range keys.length).map Int.ofNat)).find?
      (fun u => decide (u.1 = x)) = none := by
    rw [List.find?_eq_none]
    intro u hu
    have hmem : u.1 ∈ keys := (List.of_mem_zip hu).1
    simp only [decide_eq_true_eq]
    intro heq
    exact h (heq ▸ hmem)
  rw [h1]

theorem eval_accuracy_includes_missing {B K : ℕ} (labels : Fin B → ℤ)
    (lb : Fin B → Vec K) :
    eval_accuracy_item labels lb
      = ((Finset.univ.filter fun i =>
            labels i ≠ -1 ∧ labels i = ((argmax (lb i)) : ℤ)).card : ℚ) / (B : ℚ) := by
  unfold eval_accuracy_item metrics_accuracy
  have hf : (Finset.univ.filter fun i => labels i = ((argmax (lb i)) : ℤ))
      = Finset.univ.filter fun i =>
          labels i ≠ -1 ∧ labels i = ((argmax (lb i)) : ℤ) := by
    apply Finset.filter_congr
    intro i _
    constructor
    · intro hi
      refine ⟨?_, hi⟩
      rw [hi]
      omega
    · exact fun hi => hi.2
  rw [hf]

/-- C8 counterexample: EVAL mode does not exclude items whose topic label is
missing; with labels `[0, -1]` and both predictions `0`, the code's item
accuracy is `1/2` (the missing-label item counts as a miss), while the
exclusion rule claimed by the spec would give `1`. -/
theorem c8_counterexample :
    eval_accuracy_item ![(0 : ℤ), -1] (fun _ : Fin 2 => ![(1 : ℚ), 0]) = 1 / 2
    ∧ accuracy_excluding_missing ![(0 : ℤ), -1]
        (fun i => ((argmax ((fun _ : Fin 2 => ![(1 : ℚ), 0]) i)) : ℤ)) = 1
    ∧ (1 : ℚ) / 2 ≠ 1 := by
  have ha : argmax ![(1 : ℚ), 0] = 0 := by decide
  refine ⟨?_, ?_, by norm_num⟩
  · unfold eval_accuracy_item metrics_accuracy
    rw [Finset.card_filter, Fin.sum_univ_two]
    simp [ha]
  · unfold accuracy_excluding_missing
    rw [Finset.card_filter, Finset.card_filter, Fin.sum_univ_two, Fin.sum_univ_two]
    simp [ha]

/-- C8 amended: a missing item-topic label (empty string) is not an error
and resolves to the sentinel `-1` via the topic lookup table; however, EVAL
mode does NOT exclude such examples from the item accuracy: the denominator
is the full batch size and a missing-labeled example always counts as a
mismatch, since the argmax prediction is a non-negative index. -/
theorem c8_missing_item_label_amended (topics : List String) (hms : "" ∉ topics)
    {B K : ℕ} (labels : Fin B → ℤ) (lb : Fin B → Vec K) :
    topic_table topics "" = -1
    ∧ eval_accuracy_item labels lb
        = ((Finset.univ.filter fun i =>
              labels i ≠ -1 ∧ labels i = ((argmax (lb i)) : ℤ)).card : ℚ) / (B : ℚ) :=
  ⟨topic_table_missing topics hms, eval_accuracy_includes_missing labels lb⟩

/-- Witness for the amended C8 at a concrete vocabulary and batch. -/
theorem c8_missing_item_label_amended_witness :
    ("" ∉ ["a"])
    ∧ (topic_table ["a"] "" = -1
      ∧ eval_accuracy_item (fun _ : Fin 1 => (0 : ℤ)) (fun _ : Fin 1 => fun _ : Fin 1 => (0 : ℚ))
          = ((Finset.univ.filter fun _ : Fin 1 =>
                (0 : ℤ) ≠ -1 ∧ (0 : ℤ) = ((argmax (fun _ : Fin 1 => (0 : ℚ))) : ℤ)).card : ℚ)
              / ((1 : ℕ) : ℚ)) :=
  ⟨by decide,
    c8_missing_item_label_amended ["a"] (by decide) (fun _ => 0) (fun _ => fun _ => 0)⟩

/-- C9: an author id absent from the configured author-id vocabulary
resolves to the out-of-range sentinel `-1`, on which the count-row gather
faults (`none`): no usable index and no degraded unknown-author row is ever
produced. -/
theorem c9_unknown_author_fatal (author_ids : List ℤ) (x : ℤ) (hx : x ∉ author_ids)
    {A K : ℕ} (table : Fin A → Vec K) :
    create_table author_ids x = -1
    ∧ gather_row table (create_table author_ids x) = none := by
  have h1 : create_table author_ids x = -1 := create_table_unknown author_ids x hx
  refine ⟨h1, ?_⟩
  rw [h1]
  unfold gather_row
  rw [dif_neg]
  rintro ⟨hge, _⟩
  norm_num at hge

/-- Witness for C9 at a concrete vocabulary and id. -/
theorem c9_unknown_author_fatal_witness :
    ((3 : ℤ) ∉ [(5 : ℤ), 7])
    ∧ (create_table [(5 : ℤ), 7] 3 = -1
      ∧ gather_row (fun _ : Fin 1 => fun _ : Fin 1 => (0 : ℚ))
          (create_table [(5 : ℤ), 7] 3) = none) :=
  ⟨by decide, c9_unknown_author_fatal [5, 7] 3 (by decide) (fun _ => fun _ => 0)⟩

/-- C10: in PREDICT mode with no `item_id` entry in the preprocessed
features, the emitted record still carries an `item_id` field, equal to
`-1` for every item in the batch; the construction is total, so the call
does not fail. -/
theorem c10_missing_item_id_defaults {B K : ℕ} (author_ids : Fin B → ℤ)
    (lb probs_biased : Fin B → Vec K) (item_topics author_topics : Fin B → ℤ)
    (author_pred : Fin B → Vec K) :
    ∀ i, (predictions_dict none author_ids lb probs_biased item_topics author_topics
        author_pred).item_id i = -1 :=
  fun _ => rfl

end LogisticLDA
